import Mathlib

/-!
Shallow embedding of the feed-generation core of `gen_rss.py` (with
`helper_fns.py`), and proofs about it.

Modelling conventions:
* Python `datetime` values are modelled as `Int` (seconds since the epoch,
  naive).  The external `dateparser.parse` call is abstracted as a parameter
  `parseDT : String → Option Int`; `None` models a parse failure.
* `hashlib.md5` + `base64.b64encode` (an external digest) is abstracted as a
  parameter `md5b64 : String → String`.
* A Python `dict` for a CSV row is an ordered association list
  (`Record := List (String × String)`); insertion order is semantically
  relevant (field order feeds fingerprinting), which the list preserves.
  `setField` mirrors `d[k] = v` (replace in place, else append);
  `lookupField` mirrors `d.get(k)`.
* The state dict maps fingerprint to a record plus the numeric `pubDate`
  stored in it by `update_state`; the pair is modelled as `Entry` with the
  record's string fields in `loc` and the numeric timestamp in `pubDate`
  (Python stores the float under the `'pubDate'` key of the same dict; the
  rendering code skips that key when it lists record fields).
* `feedgen` serialization is external; a feed is modelled as its list of
  items (title, description, guid, publish timestamp), the only data the
  program computes per item.
* Python's stable `sorted(..., reverse=True)` is modelled by
  `List.insertionSort` with a total "greater or tie" relation, which is the
  same stable sort (stable sorts by one total preorder agree elementwise).
-/

namespace GenRss

/-! ### Character/string primitives (embeddings of the Python `str` methods used) -/

/-- Python `str.strip()`: drop leading and trailing whitespace. -/
def strip (s : String) : String :=
  String.mk (((s.data.dropWhile Char.isWhitespace).reverse.dropWhile Char.isWhitespace).reverse)

/-- Python `str.upper()` (ASCII-faithful). -/
def upper (s : String) : String :=
  String.mk (s.data.map Char.toUpper)

/-- Helper for `title`: the flag records whether the previous character was cased. -/
def titleAux : Bool → List Char → List Char
  | _, [] => []
  | prevCased, c :: cs =>
    if c.isAlpha then
      (if prevCased then c.toLower else c.toUpper) :: titleAux true cs
    else
      c :: titleAux false cs

/-- Python `str.title()`: first character of each run of letters upper-cased,
the rest lower-cased (ASCII-faithful). -/
def title (s : String) : String :=
  String.mk (titleAux false s.data)

/-- Does `pat` occur at the head of `cs`? -/
def leadsWith : List Char → List Char → Bool
  | [], _ => true
  | _ :: _, [] => false
  | p :: ps, c :: cs => p == c && leadsWith ps cs

/-- Does `pat` occur anywhere in `cs`?  Embeds Python `pat in s`. -/
def hasSub (pat : List Char) : List Char → Bool
  | [] => leadsWith pat []
  | c :: cs => leadsWith pat (c :: cs) || hasSub pat cs

/-- Python `'Time' in k`, the field-name test used by `normalise` and `gen_desc`. -/
def nameHasTime (k : String) : Bool :=
  hasSub "Time".data k.data

/-- Lexicographic (code-point) strict order on character lists: Python string `<`. -/
def charsLt : List Char → List Char → Bool
  | [], [] => false
  | [], _ :: _ => true
  | _ :: _, [] => false
  | a :: as, b :: bs => if a < b then true else if b < a then false else charsLt as bs

/-- Python string comparison `a < b` (lexicographic on code points). -/
def strLt (a b : String) : Bool :=
  charsLt a.data b.data

/-! ### Records (ordered field maps) -/

/-- A CSV row / exposure location: an insertion-ordered map from field name to
string value, as a Python `dict` of strings. -/
abbrev Record := List (String × String)

/-- Python `d.get(k)`: value of the first field named `k`. -/
def lookupField : Record → String → Option String
  | [], _ => none
  | (k', v) :: rest, k => if k' == k then some v else lookupField rest k

/-- Python `d[k] = v`: replace the value of an existing field in place,
otherwise append the field at the end. -/
def setField : Record → String → String → Record
  | [], k, v => [(k, v)]
  | (k', v') :: rest, k, v =>
    if k' == k then (k, v) :: rest else (k', v') :: setField rest k v

/-- Python `list(d.values())`: values in field order. -/
def fieldValues (r : Record) : List String :=
  r.map Prod.snd

/-! ### Dates.  `MIN_DATETIME = datetime(2020, 3, 11)` as epoch seconds;
`isoformat` / `fromisoformat` are the (abstract) rendering of a datetime into
the record and back — claims never inspect the rendered text, only that the
same value round-trips. -/

/-- `MIN_DATETIME = datetime(2020, 3, 11)` (epoch seconds). -/
def minDatetime : Int := 1583884800

/-- Abstract rendering of `value.isoformat()` for a datetime. -/
def isoformatDT (d : Int) : String := toString d

/-- Python `value.time()`: time-of-day part of a datetime. -/
def timeOfDay (d : Int) : Int := d % 86400

/-- Abstract rendering of `value.time().isoformat()`. -/
def isoformatTime (t : Int) : String := toString t

/-- Digits of a natural number, for the model inverse of `isoformatDT`. -/
def charsToNat (cs : List Char) : Nat :=
  cs.foldl (fun n c => 10 * n + (c.toNat - 48)) 0

/-- Model inverse of `isoformatDT`/`isoformatTime` (`datetime.fromisoformat` /
`time.fromisoformat` on strings this model produced). -/
def fromIso (s : String) : Int :=
  match s.data with
  | '-' :: cs => - (charsToNat cs : Int)
  | cs => (charsToNat cs : Int)

/-! ### `normalise` (gen_rss.py lines 31–62).

The source walks each location's fields in order, rewrites each field's value
in place, and on the first invalid `Date`/time field records the location's
index in `invalid` and `break`s; it finally returns the locations whose index
is not in `invalid`.  Functionally: each location independently either
normalises to a full record or is dropped, so `normalise` is the `filterMap`
of the per-location pass.  The function is total: a bad row is dropped (and
logged), never an exception. -/

/-- One field rewrite of the `normalise` loop body.  `none` marks the whole
location invalid (the `invalid.add(i); break` paths). -/
def normaliseField (parseDT : String → Option Int) (now : Int) (k v : String) :
    Option String :=
  if k == "Date" then
    match parseDT v with
    | none => none
    | some value =>
      if value < minDatetime || now < value then none else some (isoformatDT value)
  else if nameHasTime k then
    match parseDT v with
    | none => none
    | some value => some (isoformatTime (timeOfDay value))
  else if k == "Exposure Site" then some (strip v)
  else if k == "State" then some (upper (strip v))
  else some (title (strip v))

/-- The inner `for k, v in location.items()` loop: rewrite every field in
order, abandoning the location on the first invalid field. -/
def normaliseFields (parseDT : String → Option Int) (now : Int) :
    List (String × String) → Option (List (String × String))
  | [] => some []
  | (k, v) :: rest =>
    match normaliseField parseDT now k v with
    | none => none
    | some v' =>
      match normaliseFields parseDT now rest with
      | none => none
      | some rest' => some ((k, v') :: rest')

/-- Normalisation of a single location: `some` of the rewritten record, or
`none` when the location is invalid. -/
def normaliseLocation (parseDT : String → Option Int) (now : Int) (r : Record) :
    Option Record :=
  normaliseFields parseDT now r

/-- `normalise(locations)`: the sub-sequence of locations that survive
validation, each with its fields rewritten. -/
def normalise (parseDT : String → Option Int) (now : Int)
    (locations : List Record) : List Record :=
  locations.filterMap (normaliseLocation parseDT now)

/-! ### `parse_csv` (gen_rss.py lines 92–116).

CSV tokenization (`csv.reader`) is an external collaborator; the embedding
receives the rows as lists of cell strings.  `none` models the `return None`
hard-failure path. -/

/-- `FIELDS` (gen_rss.py line 26). -/
def FIELDS : List String :=
  ["Event Id", "Status", "Exposure Site", "Street", "Suburb", "State", "Date",
   "Arrival Time", "Departure Time", "Contact"]

/-- The `while not fields[-1]: fields.pop()` loop: drop trailing empty
header cells. -/
def dropTrailingBlanks (l : List String) : List String :=
  (l.reverse.dropWhile (· == "")).reverse

/-- Python `set(a) == set(b)` on string lists. -/
def sameFieldSet (a b : List String) : Bool :=
  a.all (b.contains ·) && b.all (a.contains ·)

/-- `{fields[i]: row[i].strip() for i in range(len(fields))}`. -/
def mkLocation (fields row : List String) : Record :=
  (List.range fields.length).map (fun i => (fields.getD i "", strip (row.getD i "")))

/-- `parse_csv`: validate the header, recover a header-less ten-column file by
replaying the processed first row as data, otherwise fail (`none`). -/
def parse_csv (rows : List (List String)) : Option (List Record) :=
  match rows with
  | [] => none
  | headerRow :: dataRows =>
    let fields := dropTrailingBlanks (headerRow.map (fun x => title (strip x)))
    if sameFieldSet fields FIELDS then
      some (dataRows.map (mkLocation fields))
    else if fields.length == FIELDS.length then
      some (mkLocation FIELDS fields :: dataRows.map (mkLocation FIELDS))
    else
      none

/-! ### `gen_id` and `gen_region` (gen_rss.py lines 120–135, helper_fns.py). -/

/-- `gen_id`: fingerprint each location from its field values from the third
position on (`list(location.values())[2:]` — `Event Id` and `Status` are
skipped), joined with `'-'` and digested; store it under `'id'`. -/
def gen_id (md5b64 : String → String) (locations : List Record) : List Record :=
  locations.map (fun location =>
    setField location "id"
      (md5b64 (String.intercalate "-" ((fieldValues location).drop 2))))

/-- `gen_region`: when the location has a non-empty `Suburb` (Python
truthiness of `location.get("Suburb")`), store the suburb-to-region table's
answer under `'Region'`.  The concrete table of `helper_fns.py` is an external
static dictionary; it enters as the parameter `s2r`. -/
def gen_region (s2r : String → String) (locations : List Record) : List Record :=
  locations.map (fun location =>
    match lookupField location "Suburb" with
    | some s => if s == "" then location else setField location "Region" (s2r s)
    | none => location)

/-- The enrichment pipeline of `main` (gen_rss.py lines 266–268): normalise,
then `gen_id`, then `gen_region` — fingerprints are derived before the region
field exists. -/
def processLocations (parseDT : String → Option Int) (now : Int)
    (md5b64 s2r : String → String) (locations : List Record) : List Record :=
  gen_region s2r (gen_id md5b64 (normalise parseDT now locations))

/-! ### The state store and `update_state` (gen_rss.py lines 168–187). -/

/-- A state entry: the location's record plus the numeric first-seen
timestamp that `update_state` writes under its `'pubDate'` key. -/
structure Entry where
  loc : Record
  pubDate : Int
deriving DecidableEq

/-- The persisted state: an insertion-ordered dict from fingerprint to entry. -/
abbrev State := List (String × Entry)

/-- Membership of a key in a Python dict. -/
def containsKey (d : List (String × α)) (k : String) : Bool :=
  d.any (fun kv => kv.1 == k)

/-- Python `d.get(k)` on a dict with non-string values. -/
def dictLookup : List (String × α) → String → Option α
  | [], _ => none
  | (k', v) :: rest, k => if k' == k then some v else dictLookup rest k

/-- Python `d[k] = v` on a dict: replace in place, else append. -/
def dictInsert : List (String × α) → String → α → List (String × α)
  | [], k, v => [(k, v)]
  | (k', v') :: rest, k, v =>
    if k' == k then (k, v) :: rest else (k', v') :: dictInsert rest k v

/-- `x['id']` of a location (gen_id has always run before this is read). -/
def recId (r : Record) : String :=
  (lookupField r "id").getD ""

/-- `{x['id']: x for x in exposures}` (later duplicates overwrite, first
position kept — `dictInsert` folded left). -/
def exposureGuids (exposures : List Record) : List (String × Record) :=
  exposures.foldl (fun d x => dictInsert d (recId x) x) []

/-- `update_state(existing, exposures, cur_time)`: evict fingerprints missing
from the batch, insert the batch's unseen fingerprints with
`pubDate = cur_time`, and return `(updated state, newly added entries)`.
The Python function mutates `existing` in place and returns the new-entries
dict; the embedding returns both.  Python iterates the `new_entries` set in an
unspecified order; the embedding fixes batch (first-occurrence) order — the
dict contents are order-independent and nothing downstream reads this order
before re-sorting. -/
def update_state (existing : State) (exposures : List Record) (cur_time : Int) :
    State × State :=
  let eg := exposureGuids exposures
  let survivors := existing.filter (fun kv => containsKey eg kv.1)
  let newKeys := (eg.map Prod.fst).filter (fun k => !(containsKey survivors k))
  let newEntries : State :=
    newKeys.map (fun k => (k, ⟨(dictLookup eg k).getD [], cur_time⟩))
  (survivors ++ newEntries, newEntries)

/-! ### Feed synthesis (gen_rss.py lines 148–240).

`feedgen` is an external serializer; a feed is its list of items. -/

/-- `gen_desc`: the `'<b>k</b>:v<br/>'` concatenation over the record's fields
in order, skipping `'id'` and `'pubDate'`, with the date re-rendered long and
time fields re-rendered `HHMM` (both renderings abstract; `fmt*` below). -/
def fmtLongDate (d : Int) : String := toString d

/-- Abstract rendering of `time.strftime('%H%M')`. -/
def fmtHHMM (t : Int) : String := toString t

/-- `gen_desc(loc)`. -/
def gen_desc (loc : Record) : String :=
  String.join (loc.filterMap (fun kv =>
    if kv.1 == "id" || kv.1 == "pubDate" then none
    else
      let v1 := if kv.1 == "Date" then fmtLongDate (fromIso kv.2) else kv.2
      let v2 := if nameHasTime kv.1 then fmtHHMM (fromIso v1) else v1
      some ("<b>" ++ kv.1 ++ "</b>:" ++ v2 ++ "<br/>")))

/-- One rendered item of the detail feed. -/
structure FeedItem where
  title : String
  description : String
  guid : String
  pubDate : Int
deriving DecidableEq

/-- The sort key relation of `sorted(..., key=lambda x: (x['pubDate'], x['id']),
reverse=True)`: `a` may precede `b` iff `a`'s key is `≥` `b`'s key in the
lexicographic (timestamp, fingerprint) order. -/
def entryKeyLe (a b : Entry) : Bool :=
  if b.pubDate < a.pubDate then true
  else if a.pubDate < b.pubDate then false
  else !(strLt (recId a.loc) (recId b.loc))

/-- Python's stable descending sort of the state's entries. -/
def sortEntriesDesc (l : List Entry) : List Entry :=
  List.insertionSort (fun a b => entryKeyLe a b = true) l

/-- `gen_feed(locations)`: one item per state entry, in descending
(`pubDate`, `id`) order. -/
def gen_feed (state : State) : List FeedItem :=
  (sortEntriesDesc (state.map Prod.snd)).map (fun e =>
    { title := (lookupField e.loc "Suburb").getD "" ++ ":" ++
        (lookupField e.loc "Exposure Site").getD ""
      description := gen_desc e.loc
      guid := recId e.loc
      pubDate := e.pubDate })

/-- `Counter(xs)` update step: bump the count of `s`, first-encounter order
kept. -/
def counterInc : List (String × Nat) → String → List (String × Nat)
  | [], s => [(s, 1)]
  | (k, n) :: rest, s =>
    if k == s then (k, n + 1) :: rest else (k, n) :: counterInc rest s

/-- `Counter(xs)`: counts keyed in first-encounter order. -/
def counter (xs : List String) : List (String × Nat) :=
  xs.foldl counterInc []

/-- `Counter(xs).most_common()`: stable sort of the counts, most frequent
first; ties keep first-encounter order. -/
def mostCommon (xs : List String) : List (String × Nat) :=
  List.insertionSort (fun a b => b.2 ≤ a.2) (counter xs)

/-- `summarise_group`: `'<b>suburb:</b>count<br/>'` per suburb, most frequent
first. -/
def summarise_group (grp : List Entry) : String :=
  String.join ((mostCommon (grp.map (fun x => (lookupField x.loc "Suburb").getD ""))).map
    (fun sc => "<b>" ++ sc.1 ++ ":</b>" ++ toString sc.2 ++ "<br/>"))

/-- `itertools.groupby` by `pubDate` on an already sorted list: maximal
consecutive runs of equal timestamps. -/
def groupRuns : List Entry → List (List Entry)
  | [] => []
  | e :: rest =>
    match groupRuns rest with
    | [] => [[e]]
    | [] :: gs => [e] :: [] :: gs
    | (f :: g) :: gs =>
      if e.pubDate == f.pubDate then (e :: f :: g) :: gs
      else [e] :: (f :: g) :: gs

/-- One rendered item of the summary feed. -/
structure SummaryItem where
  title : String
  description : String
  guid : String
  pubDate : Int
deriving DecidableEq

/-- `summarise_feed(locations)`: sort the entries descending, group by equal
`pubDate`, and render one item per group: title `"{n} additional exposure
sites"`, body the per-suburb counts, guid a digest of
`"{pubDate}-{description}"`. -/
def summarise_feed (md5b64 : String → String) (locations : State) :
    List SummaryItem :=
  (groupRuns (sortEntriesDesc (locations.map Prod.snd))).map (fun grp =>
    let pd := (grp.headD ⟨[], 0⟩).pubDate
    let desc := summarise_group grp
    { title := toString grp.length ++ " additional exposure sites"
      description := desc
      guid := md5b64 (toString pd ++ "-" ++ desc)
      pubDate := pd })

/-- The reconcile-and-publish tail of `main` (gen_rss.py lines 278–304): run
`update_state`; when the returned new-entries dict is non-empty write the
detail feed, the summary feed (both rendered from the full updated state) and
the updated state document, otherwise perform no writes (`none`). -/
def mainStep (md5b64 : String → String) (state : State)
    (locations : List Record) (cur_time : Int) :
    Option (List FeedItem × List SummaryItem × State) :=
  let res := update_state state locations cur_time
  if res.2.isEmpty then none
  else some (gen_feed res.1, summarise_feed md5b64 res.1, res.1)

/-! ### Helper lemmas: dictionaries -/

lemma containsKey_iff_mem_keys {α : Type} (d : List (String × α)) (k : String) :
    containsKey d k = true ↔ k ∈ d.map Prod.fst := by
  induction d with
  | nil => simp [containsKey]
  | cons kv rest ih =>
    simp only [containsKey, List.any_cons, List.map_cons, List.mem_cons,
      Bool.or_eq_true, beq_iff_eq] at *
    constructor
    · rintro (h | h)
      · exact Or.inl h.symm
      · exact Or.inr (ih.mp h)
    · rintro (h | h)
      · exact Or.inl h.symm
      · exact Or.inr (ih.mpr h)

lemma containsKey_append {α : Type} (a b : List (String × α)) (k : String) :
    containsKey (a ++ b) k = (containsKey a k || containsKey b k) := by
  simp [containsKey, List.any_append]

lemma containsKey_exists_mem {α : Type} {d : List (String × α)} {k : String}
    (h : containsKey d k = true) : ∃ kv ∈ d, kv.1 = k := by
  rcases List.mem_map.mp ((containsKey_iff_mem_keys d k).mp h) with ⟨kv, hmem, hk⟩
  exact ⟨kv, hmem, hk⟩

lemma dictLookup_mem {α : Type} {d : List (String × α)} {k : String} {v : α}
    (h : dictLookup d k = some v) : (k, v) ∈ d := by
  induction d with
  | nil => simp [dictLookup] at h
  | cons kv rest ih =>
    by_cases hk : kv.1 == k
    · rcases kv with ⟨k', v'⟩
      simp only [dictLookup, hk, if_pos] at h
      simp only [beq_iff_eq] at hk
      subst hk
      cases h
      exact List.mem_cons_self _ _
    · rcases kv with ⟨k', v'⟩
      simp only [dictLookup, hk, if_neg, Bool.false_eq_true, not_false_iff] at h
      exact List.mem_cons_of_mem _ (ih h)

lemma containsKey_of_dictLookup {α : Type} {d : List (String × α)} {k : String} {v : α}
    (h : dictLookup d k = some v) : containsKey d k = true :=
  (containsKey_iff_mem_keys d k).mpr
    (List.mem_map.mpr ⟨(k, v), dictLookup_mem h, rfl⟩)

lemma dictLookup_isSome {α : Type} {d : List (String × α)} {k : String}
    (h : containsKey d k = true) : ∃ v, dictLookup d k = some v := by
  induction d with
  | nil => simp [containsKey] at h
  | cons kv rest ih =>
    rcases kv with ⟨k', v'⟩
    by_cases hk : k' == k
    · exact ⟨v', by simp [dictLookup, hk]⟩
    · simp only [containsKey, List.any_cons, Bool.or_eq_true] at h
      rcases h with h | h
      · simp [hk] at h
      · rcases ih h with ⟨v, hv⟩
        exact ⟨v, by simp [dictLookup, hk, hv]⟩

lemma dictLookup_none_of_not_containsKey {α : Type} {d : List (String × α)} {k : String}
    (h : containsKey d k = false) : dictLookup d k = none := by
  cases hv : dictLookup d k with
  | none => rfl
  | some v => rw [containsKey_of_dictLookup hv] at h; cases h

lemma dictLookup_filter_key {α : Type} (d : List (String × α)) (f : String → Bool)
    (k : String) :
    dictLookup (d.filter (fun kv => f kv.1)) k =
      if f k then dictLookup d k else none := by
  induction d with
  | nil => simp [dictLookup]
  | cons kv rest ih =>
    rcases kv with ⟨k', v'⟩
    by_cases hk : k' == k
    · have hk' : k' = k := by simpa using hk
      subst hk'
      by_cases hf : f k'
      · simp [List.filter_cons, hf, dictLookup]
      · simp only [Bool.not_eq_true] at hf
        simp [List.filter_cons, hf, dictLookup, ih]
    · by_cases hf : f k'
      · simp [List.filter_cons, hf, dictLookup, hk, ih]
      · simp only [Bool.not_eq_true] at hf
        simp [List.filter_cons, hf, dictLookup, hk, ih]

lemma dictLookup_append_left {α : Type} {a : List (String × α)} (b : List (String × α))
    {k : String} (h : containsKey a k = true) :
    dictLookup (a ++ b) k = dictLookup a k := by
  induction a with
  | nil => simp [containsKey] at h
  | cons kv rest ih =>
    rcases kv with ⟨k', v'⟩
    by_cases hk : k' == k
    · simp [dictLookup, hk]
    · simp only [containsKey, List.any_cons, Bool.or_eq_true] at h
      rcases h with h | h
      · simp [hk] at h
      · simp [dictLookup, hk, ih h]

lemma containsKey_dictInsert {α : Type} (d : List (String × α)) (k : String) (v : α)
    (k' : String) :
    containsKey (dictInsert d k v) k' = ((k == k') || containsKey d k') := by
  induction d with
  | nil => simp [dictInsert, containsKey]
  | cons kv rest ih =>
    rcases kv with ⟨a, b⟩
    by_cases hk : a == k
    · have ha : a = k := by simpa using hk
      subst ha
      simp [dictInsert, containsKey]
    · simp only [dictInsert, hk, Bool.false_eq_true, if_neg, not_false_iff]
      simp only [containsKey, List.any_cons] at *
      rw [ih]
      cases a == k' <;> cases k == k' <;> simp

/-! ### Helper lemmas: `exposureGuids` -/

lemma foldl_dictInsert_mem_keys {xs : List Record} {d : List (String × Record)}
    {k : String}
    (h : containsKey (xs.foldl (fun d x => dictInsert d (recId x) x) d) k = true) :
    containsKey d k = true ∨ ∃ x ∈ xs, recId x = k := by
  induction xs generalizing d with
  | nil => exact Or.inl h
  | cons x rest ih =>
    rcases ih (d := dictInsert d (recId x) x) h with h' | h'
    · rw [containsKey_dictInsert] at h'
      rcases Bool.or_eq_true_iff.mp h' with h'' | h''
      · exact Or.inr ⟨x, List.mem_cons_self _ _, by simpa using h''⟩
      · exact Or.inl h''
    · rcases h' with ⟨y, hy, hk⟩
      exact Or.inr ⟨y, List.mem_cons_of_mem _ hy, hk⟩

lemma exposureGuids_keys_from_batch {exposures : List Record} {k : String}
    (h : containsKey (exposureGuids exposures) k = true) :
    ∃ x ∈ exposures, recId x = k := by
  rcases foldl_dictInsert_mem_keys (d := []) h with h' | h'
  · simp [containsKey] at h'
  · exact h'

lemma foldl_dictInsert_keys_mono {xs : List Record} {d : List (String × Record)}
    {k : String} (h : containsKey d k = true) :
    containsKey (xs.foldl (fun d x => dictInsert d (recId x) x) d) k = true := by
  induction xs generalizing d with
  | nil => exact h
  | cons x rest ih =>
    exact ih (by rw [containsKey_dictInsert]; simp [h])

lemma foldl_dictInsert_mem {xs : List Record} {x : Record} (h : x ∈ xs) :
    ∀ d, containsKey (xs.foldl (fun d x => dictInsert d (recId x) x) d) (recId x) = true := by
  induction xs with
  | nil => cases h
  | cons y rest ih =>
    intro d
    rcases List.mem_cons.mp h with h' | h'
    · subst h'
      rw [List.foldl_cons]
      exact foldl_dictInsert_keys_mono (by rw [containsKey_dictInsert]; simp)
    · exact ih h' _

lemma containsKey_exposureGuids_of_mem {exposures : List Record} {x : Record}
    (h : x ∈ exposures) :
    containsKey (exposureGuids exposures) (recId x) = true :=
  foldl_dictInsert_mem h []

lemma mem_dictInsert {α : Type} {d : List (String × α)} {k : String} {v : α}
    {kv : String × α} (h : kv ∈ dictInsert d k v) : kv = (k, v) ∨ kv ∈ d := by
  induction d with
  | nil => simpa [dictInsert] using h
  | cons a rest ih =>
    by_cases hk : a.1 == k
    · rcases a with ⟨a1, a2⟩
      simp only [dictInsert, hk, if_pos] at h
      rcases List.mem_cons.mp h with h' | h'
      · exact Or.inl h'
      · exact Or.inr (List.mem_cons_of_mem _ h')
    · rcases a with ⟨a1, a2⟩
      simp only [dictInsert, hk, Bool.false_eq_true, if_neg, not_false_iff] at h
      rcases List.mem_cons.mp h with h' | h'
      · exact Or.inr (by simp [h'])
      · rcases ih h' with h'' | h''
        · exact Or.inl h''
        · exact Or.inr (List.mem_cons_of_mem _ h'')

lemma foldl_dictInsert_id_inv {xs : List Record} {d : List (String × Record)}
    (hd : ∀ kv ∈ d, recId kv.2 = kv.1) :
    ∀ kv ∈ xs.foldl (fun d x => dictInsert d (recId x) x) d, recId kv.2 = kv.1 := by
  induction xs generalizing d with
  | nil => exact hd
  | cons x rest ih =>
    refine ih (fun kv hkv => ?_)
    rcases mem_dictInsert hkv with h | h
    · subst h; rfl
    · exact hd kv h

lemma exposureGuids_id_inv {exposures : List Record} {k : String} {r : Record}
    (h : dictLookup (exposureGuids exposures) k = some r) : recId r = k :=
  foldl_dictInsert_id_inv (by simp) (k, r) (dictLookup_mem h)

/-! ### Helper lemmas: the lexicographic string order -/

lemma charsLt_asymm : ∀ {a b : List Char},
    charsLt a b = true → charsLt b a = false
  | [], [], h => by simp [charsLt] at h
  | [], _ :: _, _ => rfl
  | _ :: _, [], h => by simp [charsLt] at h
  | x :: xs, y :: ys, h => by
    by_cases hxy : x < y
    · have hyx : ¬ y < x := lt_asymm hxy
      simp [charsLt, hxy, hyx]
    · by_cases hyx : y < x
      · simp [charsLt, hxy, hyx] at h
      · simp only [charsLt, hxy, hyx, if_false] at h
        simp [charsLt, hxy, hyx, charsLt_asymm h]

lemma charsLt_trans : ∀ {a b c : List Char},
    charsLt a b = true → charsLt b c = true → charsLt a c = true
  | [], [], _, h1, _ => by simp [charsLt] at h1
  | [], _ :: _, [], _, h2 => by simp [charsLt] at h2
  | [], _ :: _, _ :: _, _, _ => rfl
  | _ :: _, [], _, h1, _ => by simp [charsLt] at h1
  | _ :: _, _ :: _, [], _, h2 => by simp [charsLt] at h2
  | x :: xs, y :: ys, z :: zs, h1, h2 => by
    by_cases hxy : x < y
    · by_cases hyz : y < z
      · simp [charsLt, lt_trans hxy hyz]
      · by_cases hzy : z < y
        · simp [charsLt, hyz, hzy] at h2
        · have hyz' : y = z := le_antisymm (le_of_not_lt hzy) (le_of_not_lt hyz)
          subst hyz'
          simp [charsLt, hxy]
    · by_cases hyx : y < x
      · simp [charsLt, hxy, hyx] at h1
      · have hxy' : x = y := le_antisymm (le_of_not_lt hyx) (le_of_not_lt hxy)
        subst hxy'
        simp only [charsLt, hxy, hyx, if_false] at h1
        by_cases hyz : x < z
        · simp [charsLt, hyz]
        · by_cases hzy : z < x
          · simp [charsLt, hyz, hzy] at h2
          · simp only [charsLt, hyz, hzy, if_false] at h2
            simp [charsLt, hyz, hzy, charsLt_trans h1 h2]

lemma charsLt_conn : ∀ {a b : List Char},
    charsLt a b = false → charsLt b a = false → a = b
  | [], [], _, _ => rfl
  | [], _ :: _, h1, _ => by simp [charsLt] at h1
  | _ :: _, [], _, h2 => by simp [charsLt] at h2
  | x :: xs, y :: ys, h1, h2 => by
    by_cases hxy : x < y
    · simp [charsLt, hxy] at h1
    · by_cases hyx : y < x
      · simp [charsLt, hyx] at h2
      · have hxy' : x = y := le_antisymm (le_of_not_lt hyx) (le_of_not_lt hxy)
        subst hxy'
        simp only [charsLt, hxy, hyx, if_false] at h1 h2
        rw [charsLt_conn h1 h2]

lemma charsLt_ge_trans {a b c : List Char}
    (h1 : charsLt a b = false) (h2 : charsLt b c = false) :
    charsLt a c = false := by
  by_cases hba : charsLt b a = true
  · by_cases hac : charsLt a c = true
    · rw [charsLt_trans hba hac] at h2; cases h2
    · simpa using hac
  · rw [charsLt_conn h1 (by simpa using hba)]
    exact h2

lemma strLt_asymm {a b : String} (h : strLt a b = true) : strLt b a = false :=
  charsLt_asymm h

lemma strLt_ge_trans {a b c : String}
    (h1 : strLt a b = false) (h2 : strLt b c = false) : strLt a c = false :=
  charsLt_ge_trans h1 h2

/-! ### Helper lemmas: the detail-feed sort relation -/

lemma entryKeyLe_iff (a b : Entry) :
    entryKeyLe a b = true ↔
      (b.pubDate < a.pubDate ∨
        (a.pubDate = b.pubDate ∧ strLt (recId a.loc) (recId b.loc) = false)) := by
  rcases lt_trichotomy a.pubDate b.pubDate with h | h | h
  · have h1 : ¬ b.pubDate < a.pubDate := by omega
    have h2 : a.pubDate ≠ b.pubDate := by omega
    simp [entryKeyLe, h, h1, h2]
  · have h1 : ¬ b.pubDate < a.pubDate := by omega
    have h2 : ¬ a.pubDate < b.pubDate := by omega
    simp [entryKeyLe, h, h1, h2, Bool.not_eq_true']
  · simp [entryKeyLe, h]

lemma entryKeyLe_total (a b : Entry) :
    entryKeyLe a b = true ∨ entryKeyLe b a = true := by
  rcases lt_trichotomy a.pubDate b.pubDate with h | h | h
  · exact Or.inr ((entryKeyLe_iff b a).mpr (Or.inl h))
  · by_cases hs : strLt (recId a.loc) (recId b.loc) = true
    · exact Or.inr ((entryKeyLe_iff b a).mpr (Or.inr ⟨h.symm, strLt_asymm hs⟩))
    · exact Or.inl ((entryKeyLe_iff a b).mpr (Or.inr ⟨h, by simpa using hs⟩))
  · exact Or.inl ((entryKeyLe_iff a b).mpr (Or.inl h))

lemma entryKeyLe_trans (a b c : Entry) (h1 : entryKeyLe a b = true)
    (h2 : entryKeyLe b c = true) : entryKeyLe a c = true := by
  rw [entryKeyLe_iff] at h1 h2 ⊢
  rcases h1 with h1 | ⟨h1e, h1s⟩
  · rcases h2 with h2 | ⟨h2e, h2s⟩
    · exact Or.inl (by omega)
    · exact Or.inl (by omega)
  · rcases h2 with h2 | ⟨h2e, h2s⟩
    · exact Or.inl (by omega)
    · exact Or.inr ⟨by omega, strLt_ge_trans h1s h2s⟩

/-! ### Helper lemmas: `update_state` -/

lemma survivors_eq (existing : State) (exposures : List Record) (cur_time : Int) :
    update_state existing exposures cur_time =
      (existing.filter (fun kv => containsKey (exposureGuids exposures) kv.1) ++
        (((exposureGuids exposures).map Prod.fst).filter
          (fun k => !(containsKey
            (existing.filter (fun kv => containsKey (exposureGuids exposures) kv.1)) k))).map
          (fun k => (k, ⟨(dictLookup (exposureGuids exposures) k).getD [], cur_time⟩)),
       (((exposureGuids exposures).map Prod.fst).filter
          (fun k => !(containsKey
            (existing.filter (fun kv => containsKey (exposureGuids exposures) kv.1)) k))).map
          (fun k => (k, ⟨(dictLookup (exposureGuids exposures) k).getD [], cur_time⟩))) := rfl

lemma update_state_fst_keys {existing : State} {exposures : List Record}
    {cur_time : Int} :
    ∀ kv ∈ (update_state existing exposures cur_time).1,
      containsKey (exposureGuids exposures) kv.1 = true := by
  intro kv hkv
  rw [survivors_eq] at hkv
  rcases List.mem_append.mp hkv with h | h
  · exact (List.mem_filter.mp h).2
  · rcases List.mem_map.mp h with ⟨k, hk, hkv'⟩
    have hk' := (List.mem_filter.mp hk).1
    rw [← hkv']
    exact (containsKey_iff_mem_keys _ _).mpr hk'

lemma update_state_covers {existing : State} {exposures : List Record}
    {cur_time : Int} {k : String}
    (hk : containsKey (exposureGuids exposures) k = true) :
    containsKey (update_state existing exposures cur_time).1 k = true := by
  rw [survivors_eq, containsKey_append]
  by_cases hs : containsKey
      (existing.filter (fun kv => containsKey (exposureGuids exposures) kv.1)) k = true
  · simp [hs]
  · have hmem : k ∈ ((exposureGuids exposures).map Prod.fst).filter
        (fun k => !(containsKey
          (existing.filter (fun kv => containsKey (exposureGuids exposures) kv.1)) k)) :=
      List.mem_filter.mpr ⟨(containsKey_iff_mem_keys _ _).mp hk, by simp [hs]⟩
    have : containsKey ((((exposureGuids exposures).map Prod.fst).filter
        (fun k => !(containsKey
          (existing.filter (fun kv => containsKey (exposureGuids exposures) kv.1)) k))).map
        (fun k => (k, (⟨(dictLookup (exposureGuids exposures) k).getD [], cur_time⟩ : Entry))))
        k = true := by
      rw [containsKey_iff_mem_keys, List.map_map]
      simpa using hmem
    simp [this]

lemma update_state_wf {existing : State} {exposures : List Record} {cur_time : Int}
    (hwf : ∀ kv ∈ existing, recId kv.2.loc = kv.1) :
    ∀ kv ∈ (update_state existing exposures cur_time).1, recId kv.2.loc = kv.1 := by
  intro kv hkv
  rw [survivors_eq] at hkv
  rcases List.mem_append.mp hkv with h | h
  · exact hwf kv (List.mem_filter.mp h).1
  · rcases List.mem_map.mp h with ⟨k, hk, hkv'⟩
    have hkey : containsKey (exposureGuids exposures) k = true :=
      (containsKey_iff_mem_keys _ _).mpr (List.mem_filter.mp hk).1
    rcases dictLookup_isSome hkey with ⟨r, hr⟩
    rw [← hkv']
    simpa [hr] using exposureGuids_id_inv hr

lemma gen_feed_guids {st : State} {item : FeedItem} (h : item ∈ gen_feed st) :
    ∃ kv ∈ st, item.guid = recId kv.2.loc := by
  rcases List.mem_map.mp h with ⟨e, he, hitem⟩
  have he' : e ∈ st.map Prod.snd :=
    (List.perm_insertionSort _ (st.map Prod.snd)).mem_iff.mp he
  rcases List.mem_map.mp he' with ⟨kv, hkv, hkv'⟩
  exact ⟨kv, hkv, by rw [← hitem, ← hkv']⟩

/-! ### Claim C1 -/

/-- C1: reconciliation is idempotent — running `update_state` a second time
with the same batch immediately after a first run returns an empty set of
newly added entries and leaves the state exactly as the first run left it
(for any clock values of the two runs). -/
theorem update_state_idempotent (existing : State) (exposures : List Record)
    (t₁ t₂ : Int) :
    update_state (update_state existing exposures t₁).1 exposures t₂ =
      ((update_state existing exposures t₁).1, []) := by
  have hfilter : (update_state existing exposures t₁).1.filter
      (fun kv => containsKey (exposureGuids exposures) kv.1) =
      (update_state existing exposures t₁).1 :=
    List.filter_eq_self.mpr (fun kv hkv => update_state_fst_keys kv hkv)
  have hnil : ((exposureGuids exposures).map Prod.fst).filter
      (fun k => !(containsKey ((update_state existing exposures t₁).1.filter
        (fun kv => containsKey (exposureGuids exposures) kv.1)) k)) = [] := by
    rw [hfilter]
    refine List.filter_eq_nil_iff.mpr (fun k hk => ?_)
    have hc : containsKey (update_state existing exposures t₁).1 k = true :=
      update_state_covers ((containsKey_iff_mem_keys _ _).mpr hk)
    simp [hc]
  rw [survivors_eq (update_state existing exposures t₁).1 exposures t₂, hnil, hfilter]
  simp

/-! ### Claim C4 -/

/-- C4: eviction — a fingerprint that is a key of the (well-formed) prior
state but is not the fingerprint of any record of the current batch is absent
from the updated state, and no item of a detail feed rendered from that
updated state carries it as its guid. -/
theorem update_state_evicts (existing : State) (exposures : List Record) (t : Int)
    (g : String) (_hkey : containsKey existing g = true)
    (hwf : ∀ kv ∈ existing, recId kv.2.loc = kv.1)
    (hg : ∀ x ∈ exposures, recId x ≠ g) :
    containsKey (update_state existing exposures t).1 g = false ∧
    ∀ item ∈ gen_feed (update_state existing exposures t).1, item.guid ≠ g := by
  have hnotin : containsKey (exposureGuids exposures) g = false := by
    cases h : containsKey (exposureGuids exposures) g
    · rfl
    · rcases exposureGuids_keys_from_batch h with ⟨x, hx, hid⟩
      exact absurd hid (hg x hx)
  have habs : containsKey (update_state existing exposures t).1 g = false := by
    cases h : containsKey (update_state existing exposures t).1 g
    · rfl
    · rcases containsKey_exists_mem h with ⟨kv, hkv, hkv1⟩
      have hk := update_state_fst_keys kv hkv
      rw [hkv1, hnotin] at hk
      cases hk
  refine ⟨habs, fun item hitem hcontra => ?_⟩
  rcases gen_feed_guids hitem with ⟨kv, hkv, hguid⟩
  have hk1 : kv.1 = g := by rw [← update_state_wf hwf kv hkv, ← hguid, hcontra]
  have hc : containsKey (update_state existing exposures t).1 g = true :=
    (containsKey_iff_mem_keys _ _).mpr (List.mem_map.mpr ⟨kv, hkv, hk1⟩)
  rw [habs] at hc
  cases hc

/-- Witness for C4: a concrete state holding fingerprint `"g"` and a batch
whose only record fingerprints to `"a"`; `"g"` is evicted and absent from the
rendered feed. -/
theorem update_state_evicts_spot :
    (containsKey ([("g", (⟨[("id", "g")], 1⟩ : Entry))] : State) "g" = true ∧
      (∀ kv ∈ ([("g", (⟨[("id", "g")], 1⟩ : Entry))] : State), recId kv.2.loc = kv.1) ∧
      (∀ x ∈ [[("id", "a")]], recId x ≠ "g")) ∧
    (containsKey (update_state [("g", ⟨[("id", "g")], 1⟩)] [[("id", "a")]] 2).1 "g"
        = false ∧
      ∀ item ∈ gen_feed (update_state [("g", ⟨[("id", "g")], 1⟩)] [[("id", "a")]] 2).1,
        item.guid ≠ "g") :=
  ⟨⟨by decide, by decide, by decide⟩,
    update_state_evicts _ _ _ _ (by decide) (by decide) (by decide)⟩

/-! ### Claim C5 -/

/-- C5: timestamp preservation — a fingerprint present both in the prior
state and in the current batch keeps its prior entry unchanged (record fields
and first-seen `pubDate` alike), and the fingerprint is not among the newly
added entries, so the current run's clock is never written to it. -/
theorem update_state_keeps_prior_entry (existing : State) (exposures : List Record)
    (t : Int) (g : String) (e : Entry)
    (hlook : dictLookup existing g = some e)
    (hx : ∃ x ∈ exposures, recId x = g) :
    dictLookup (update_state existing exposures t).1 g = some e ∧
    dictLookup (update_state existing exposures t).2 g = none := by
  rcases hx with ⟨x, hmx, hid⟩
  have hkeg : containsKey (exposureGuids exposures) g = true := by
    rw [← hid]
    exact containsKey_exposureGuids_of_mem hmx
  have hsurv : dictLookup (existing.filter
      (fun kv => containsKey (exposureGuids exposures) kv.1)) g = some e := by
    rw [dictLookup_filter_key]
    simp [hkeg, hlook]
  have hcs : containsKey (existing.filter
      (fun kv => containsKey (exposureGuids exposures) kv.1)) g = true :=
    containsKey_of_dictLookup hsurv
  constructor
  · rw [survivors_eq]
    dsimp only
    rw [dictLookup_append_left _ hcs, hsurv]
  · rw [survivors_eq]
    dsimp only
    refine dictLookup_none_of_not_containsKey ?_
    cases h : containsKey ((((exposureGuids exposures).map Prod.fst).filter
        (fun k => !(containsKey (existing.filter
          (fun kv => containsKey (exposureGuids exposures) kv.1)) k))).map
        (fun k => (k, (⟨(dictLookup (exposureGuids exposures) k).getD [], t⟩ : Entry)))) g
    · rfl
    · exfalso
      rw [containsKey_iff_mem_keys, List.map_map] at h
      rcases List.mem_map.mp h with ⟨k, hk, hkg⟩
      have hkg' : k = g := by simpa using hkg
      have hnot := (List.mem_filter.mp hk).2
      rw [hkg'] at hnot
      rw [hcs] at hnot
      cases hnot

/-- Witness for C5: fingerprint `"g"` is in the prior state (first seen at
time 1) and again in the batch; after a run at time 9 it still maps to the
original entry and is not reported as newly added. -/
theorem update_state_keeps_prior_entry_spot :
    (dictLookup ([("g", (⟨[("id", "g")], 1⟩ : Entry))] : State) "g"
        = some (⟨[("id", "g")], 1⟩ : Entry) ∧
      (∃ x ∈ [[("id", "g")], [("id", "b")]], recId x = "g")) ∧
    (dictLookup (update_state [("g", ⟨[("id", "g")], 1⟩)]
        [[("id", "g")], [("id", "b")]] 9).1 "g" = some (⟨[("id", "g")], 1⟩ : Entry) ∧
      dictLookup (update_state [("g", ⟨[("id", "g")], 1⟩)]
        [[("id", "g")], [("id", "b")]] 9).2 "g" = none) :=
  ⟨⟨by decide, ⟨[("id", "g")], by decide, by decide⟩⟩,
    update_state_keeps_prior_entry _ _ _ _ _ (by decide)
      ⟨[("id", "g")], by decide, by decide⟩⟩

/-! ### Claim C6 -/

/-- C6: the detail feed has exactly one item per state entry and is totally
ordered by the pair (first-seen timestamp, fingerprint) descending: along the
emitted list every later item has a strictly smaller timestamp, or an equal
timestamp and a fingerprint that is not greater in the code-point order. -/
theorem gen_feed_ordering (state : State) :
    (gen_feed state).length = state.length ∧
    (gen_feed state).Pairwise (fun a b =>
      b.pubDate < a.pubDate ∨
        (a.pubDate = b.pubDate ∧ strLt a.guid b.guid = false)) := by
  constructor
  · simp [gen_feed, sortEntriesDesc, List.length_insertionSort]
  · haveI ht : IsTotal Entry (fun a b => entryKeyLe a b = true) := ⟨entryKeyLe_total⟩
    haveI htr : IsTrans Entry (fun a b => entryKeyLe a b = true) := ⟨entryKeyLe_trans⟩
    have hs := List.sorted_insertionSort (fun a b => entryKeyLe a b = true)
      (state.map Prod.snd)
    unfold gen_feed sortEntriesDesc
    exact List.Pairwise.map _ (fun a b hab => (entryKeyLe_iff a b).mp hab) hs

/-! ### Claim C2 -/

/-- C2 counterexample: a run in which the only change is an eviction.  The
prior state holds fingerprint `"g"`, the batch is empty, so an eviction
occurs (the state's cardinality drops from 1 to 0) and no entry is newly
added — yet the run writes nothing (`mainStep` yields `none`), where the
claim demands that the feeds and state still be rewritten. -/
theorem eviction_only_run_writes_nothing :
    (update_state [("g", (⟨[("id", "g")], 1⟩ : Entry))] [] 2).2 = [] ∧
    (update_state [("g", (⟨[("id", "g")], 1⟩ : Entry))] [] 2).1.length ≠
      ([("g", (⟨[("id", "g")], 1⟩ : Entry))] : State).length ∧
    mainStep (fun s => s) [("g", ⟨[("id", "g")], 1⟩)] [] 2 = none := by
  decide

/-- C2 (amended): the run regenerates and writes the feeds and the state
document if and only if the set of newly added entries is non-empty; a run
whose only change is an eviction performs no writes. -/
theorem mainStep_writes_iff_new_entries (md5b64 : String → String) (state : State)
    (locations : List Record) (cur_time : Int) :
    mainStep md5b64 state locations cur_time = none ↔
      (update_state state locations cur_time).2 = [] := by
  unfold mainStep
  cases h : (update_state state locations cur_time).2 with
  | nil => simp [h]
  | cons kv rest => simp [h]

/-! ### Claim C3 -/

/-- C3: `main` passes the full reconciled state — not the newly added
entries — to `summarise_feed`.  Concretely: the prior state already holds
entry `"a"` (Fyshwick, first seen at time 1); the batch re-lists `"a"` and
adds `"b"` (Nicholls); only `"b"` is newly added, yet the summary the run
writes contains a second group, at timestamp 1, built from the
previously-present entry `"a"`. -/
theorem summary_includes_prior_entry :
    (update_state [("a", (⟨[("id", "a"), ("Suburb", "Fyshwick")], 1⟩ : Entry))]
        [[("id", "a"), ("Suburb", "Fyshwick")], [("id", "b"), ("Suburb", "Nicholls")]]
        2).2.map Prod.fst = ["b"] ∧
    (mainStep (fun s => s)
        [("a", ⟨[("id", "a"), ("Suburb", "Fyshwick")], 1⟩)]
        [[("id", "a"), ("Suburb", "Fyshwick")], [("id", "b"), ("Suburb", "Nicholls")]]
        2).map
      (fun out => out.2.1.map (fun it => (it.description, it.pubDate))) =
    some [("<b>Nicholls:</b>1<br/>", 2), ("<b>Fyshwick:</b>1<br/>", 1)] := by
  decide

/-! ### Helper lemmas: grouping and normalisation -/

lemma groupRuns_const {T : Int} : ∀ (l : List Entry), l ≠ [] →
    (∀ e ∈ l, e.pubDate = T) → groupRuns l = [l]
  | [], h, _ => absurd rfl h
  | [_], _, _ => rfl
  | e :: f :: rest, _, hT => by
    have ih := groupRuns_const (f :: rest) (by simp)
      (fun x hx => hT x (List.mem_cons_of_mem _ hx))
    have he : e.pubDate = T := hT e (List.mem_cons_self _ _)
    have hf : f.pubDate = T := hT f (by simp)
    have hstep : groupRuns (e :: f :: rest) =
        match groupRuns (f :: rest) with
        | [] => [[e]]
        | [] :: gs => [e] :: [] :: gs
        | (f' :: g) :: gs =>
          if e.pubDate == f'.pubDate then (e :: f' :: g) :: gs
          else [e] :: (f' :: g) :: gs := rfl
    rw [hstep, ih]
    simp [he, hf]

lemma filterMap_sublist_map {α : Type} (f : α → Option α) (l : List α) :
    (l.filterMap f).Sublist (l.map (fun x => (f x).getD x)) := by
  induction l with
  | nil => simp
  | cons a rest ih =>
    cases hfa : f a with
    | none =>
      simp only [List.filterMap_cons, hfa, List.map_cons]
      exact ih.cons _
    | some b =>
      simp only [List.filterMap_cons, hfa, List.map_cons, Option.getD_some]
      exact ih.cons₂ _

lemma normaliseFields_date_none {parseDT : String → Option Int} {now : Int} :
    ∀ {r : Record} {v : String}, lookupField r "Date" = some v →
    (∀ d, parseDT v = some d → d < minDatetime ∨ now < d) →
    normaliseFields parseDT now r = none
  | [], v, hd, _ => by simp [lookupField] at hd
  | (k, w) :: rest, v, hd, hbad => by
    by_cases hk : k == "Date"
    · have hkD : k = "Date" := by simpa using hk
      subst hkD
      have hw : w = v := by simpa [lookupField] using hd
      cases hp : parseDT w with
      | none => simp [normaliseFields, normaliseField, hp]
      | some d =>
        rcases hbad d (by rw [← hw]; exact hp) with h | h
        · simp [normaliseFields, normaliseField, hp, h]
        · simp [normaliseFields, normaliseField, hp, h]
    · have hd' : lookupField rest "Date" = some v := by
        simpa [lookupField, hk] using hd
      have ih := normaliseFields_date_none hd' hbad
      cases hnf : normaliseField parseDT now k w with
      | none => simp [normaliseFields, hnf]
      | some w' => simp [normaliseFields, hnf, ih]

lemma lookupField_setField_ne {k' k : String} (hne : k' ≠ k) :
    ∀ (r : Record) (v : String), lookupField (setField r k' v) k = lookupField r k
  | [], v => by
    have h : (k' == k) = false := by simpa using hne
    simp [setField, lookupField, h]
  | (a, b) :: rest, v => by
    have hkk : (k' == k) = false := by simpa using hne
    by_cases ha : a == k'
    · have haeq : a = k' := by simpa using ha
      have hak : (a == k) = false := by
        rw [haeq]
        exact hkk
      simp [setField, ha, lookupField, hak, hkk]
    · by_cases hak : a == k
      · simp [setField, ha, lookupField, hak]
      · simp [setField, ha, lookupField, hak, lookupField_setField_ne hne rest v]

lemma gen_region_keeps_id (s2r : String → String) (l : List Record) :
    (gen_region s2r l).map (fun r => lookupField r "id") =
      l.map (fun r => lookupField r "id") := by
  unfold gen_region
  rw [List.map_map]
  refine List.map_congr_left (fun r hr => ?_)
  cases hs : lookupField r "Suburb" with
  | none => simp [hs]
  | some s =>
    by_cases hse : s = ""
    · simp [hs, hse]
    · simp [hs, hse, lookupField_setField_ne (by decide : ("Region" : String) ≠ "id")]

/-! ### Claim C7 -/

/-- C7: a batch of newly added entries sharing one first-seen timestamp
yields exactly one summary item titled "{count} additional exposure sites";
concretely, three records first seen together at time 5 — two in Fyshwick,
one in Nicholls — yield one item titled "3 additional exposure sites" whose
body lists Fyshwick (count 2) before Nicholls (count 1). -/
theorem summarise_feed_one_group (md5b64 : String → String) (T : Int) (st : State)
    (hne : st ≠ []) (hT : ∀ kv ∈ st, kv.2.pubDate = T) :
    (summarise_feed md5b64 st).map (fun it => (it.title, it.pubDate)) =
      [(toString st.length ++ " additional exposure sites", T)] ∧
    (summarise_feed md5b64
        (update_state []
          [[("id", "f1"), ("Suburb", "Fyshwick")],
           [("id", "f2"), ("Suburb", "Fyshwick")],
           [("id", "n1"), ("Suburb", "Nicholls")]] 5).2).map
      (fun it => (it.title, it.description, it.pubDate)) =
    [("3 additional exposure sites",
      "<b>Fyshwick:</b>2<br/><b>Nicholls:</b>1<br/>", 5)] := by
  constructor
  · have hpe : ∀ e ∈ sortEntriesDesc (st.map Prod.snd), e.pubDate = T := by
      intro e he
      have he' : e ∈ st.map Prod.snd :=
        (List.perm_insertionSort _ (st.map Prod.snd)).mem_iff.mp he
      rcases List.mem_map.mp he' with ⟨kv, hkv, hkv'⟩
      rw [← hkv']
      exact hT kv hkv
    have hlen : (sortEntriesDesc (st.map Prod.snd)).length = st.length := by
      simp [sortEntriesDesc, List.length_insertionSort]
    have hnil : sortEntriesDesc (st.map Prod.snd) ≠ [] := by
      intro h0
      rw [h0] at hlen
      exact hne (List.length_eq_zero.mp hlen.symm)
    have hgr := groupRuns_const _ hnil hpe
    obtain ⟨h0, t0, heq⟩ :
        ∃ h0 t0, sortEntriesDesc (st.map Prod.snd) = h0 :: t0 := by
      cases hcase : sortEntriesDesc (st.map Prod.snd) with
      | nil => exact absurd hcase hnil
      | cons a b => exact ⟨a, b, rfl⟩
    have hh : h0.pubDate = T := hpe h0 (by rw [heq]; exact List.mem_cons_self _ _)
    have hlen' : t0.length + 1 = st.length := by
      rw [heq] at hlen
      simpa using hlen
    unfold summarise_feed
    rw [heq] at hgr
    rw [heq, hgr]
    simp [hh, ← hlen']
  · rfl

/-- Witness for C7: a one-entry state whose single entry was first seen at
time 4 yields one summary item titled "1 additional exposure sites". -/
theorem summarise_feed_one_group_spot :
    (([("x", (⟨[("Suburb", "S"), ("id", "x")], 4⟩ : Entry))] : State) ≠ [] ∧
      (∀ kv ∈ ([("x", (⟨[("Suburb", "S"), ("id", "x")], 4⟩ : Entry))] : State),
        kv.2.pubDate = 4)) ∧
    (summarise_feed (fun s => s)
        [("x", ⟨[("Suburb", "S"), ("id", "x")], 4⟩)]).map
      (fun it => (it.title, it.pubDate)) =
      [("1 additional exposure sites", 4)] :=
  ⟨⟨by decide, by decide⟩,
    (summarise_feed_one_group (fun s => s) 4
      [("x", ⟨[("Suburb", "S"), ("id", "x")], 4⟩)] (by decide) (by decide)).1⟩

/-! ### Claim C8 -/

/-- C8: a record whose `Date` field is unparseable, parses before the fixed
epoch floor, or parses after the normalisation-time clock is marked invalid
and excluded: it contributes nothing to `normalise`'s output wherever it sits
in the batch, so it never reaches `gen_id`; and `normalise` always returns an
order-preserving selection of the (normalised) remaining records.  All paths
are total — a bad row is dropped, never an exception. -/
theorem normalise_drops_invalid_date (parseDT : String → Option Int) (now : Int)
    (md5b64 : String → String) (r : Record) (v : String)
    (hd : lookupField r "Date" = some v)
    (hbad : ∀ d, parseDT v = some d → d < minDatetime ∨ now < d) :
    normaliseLocation parseDT now r = none ∧
    (∀ l₁ l₂ : List Record,
      normalise parseDT now (l₁ ++ r :: l₂) = normalise parseDT now (l₁ ++ l₂)) ∧
    (∀ l₁ l₂ : List Record,
      gen_id md5b64 (normalise parseDT now (l₁ ++ r :: l₂)) =
        gen_id md5b64 (normalise parseDT now (l₁ ++ l₂))) ∧
    (∀ locations : List Record,
      (normalise parseDT now locations).Sublist
        (locations.map (fun x => (normaliseLocation parseDT now x).getD x))) := by
  have h1 : normaliseLocation parseDT now r = none :=
    normaliseFields_date_none hd hbad
  have h2 : ∀ l₁ l₂ : List Record,
      normalise parseDT now (l₁ ++ r :: l₂) = normalise parseDT now (l₁ ++ l₂) := by
    intro l₁ l₂
    simp [normalise, List.filterMap_append, List.filterMap_cons, h1]
  exact ⟨h1, h2, fun l₁ l₂ => by rw [h2],
    fun locations => filterMap_sublist_map _ _⟩

/-- Witness for C8: an unparseable date ("not a date" under a parser that
rejects everything) is dropped and the surrounding batch is unaffected. -/
theorem normalise_drops_invalid_date_spot :
    (lookupField [("Date", "not a date")] "Date" = some "not a date" ∧
      (∀ d : Int, (none : Option Int) = some d → d < minDatetime ∨ (0 : Int) < d)) ∧
    (normaliseLocation (fun _ => none) 0 [("Date", "not a date")] = none ∧
      normalise (fun _ => none) 0
          ([[("Suburb", "Aranda")]] ++ [("Date", "not a date")] ::
            [[("Suburb", "Bruce")]]) =
        normalise (fun _ => none) 0 ([[("Suburb", "Aranda")]] ++ [[("Suburb", "Bruce")]])) :=
  ⟨⟨rfl, fun _ h => Option.noConfusion h⟩,
    ⟨(normalise_drops_invalid_date (fun _ => none) 0 (fun s => s)
        [("Date", "not a date")] "not a date" rfl (fun _ h => Option.noConfusion h)).1,
      (normalise_drops_invalid_date (fun _ => none) 0 (fun s => s)
        [("Date", "not a date")] "not a date" rfl (fun _ h => Option.noConfusion h)).2.1
        [[("Suburb", "Aranda")]] [[("Suburb", "Bruce")]]⟩⟩

/-! ### Claim C9 -/

/-- C9 counterexample: a CSV whose header row has ten columns but matches
none of the expected field names.  The claim demands a hard parse failure
(`none`); the code instead recovers, reinterpreting the mismatched header as
a data row, and returns two records. -/
theorem parse_csv_ten_column_recovery :
    parse_csv [["A", "B", "C", "D", "E", "F", "G", "H", "I", "J"],
      ["1", "2", "3", "4", "5", "6", "7", "8", "9", "0"]] ≠ none ∧
    (parse_csv [["A", "B", "C", "D", "E", "F", "G", "H", "I", "J"],
      ["1", "2", "3", "4", "5", "6", "7", "8", "9", "0"]]).map List.length =
      some 2 := by
  decide

/-- C9 (amended): a processed header that is not set-equal to the expected
schema is a hard parse failure (`none`) only when its column count differs
from the schema's ten; with exactly ten columns the parser recovers by
treating the processed header row as a data row under the expected schema. -/
theorem parse_csv_header_mismatch (headerRow : List String)
    (dataRows : List (List String))
    (hset : sameFieldSet
      (dropTrailingBlanks (headerRow.map (fun x => title (strip x)))) FIELDS = false) :
    ((dropTrailingBlanks (headerRow.map (fun x => title (strip x)))).length ≠
        FIELDS.length →
      parse_csv (headerRow :: dataRows) = none) ∧
    ((dropTrailingBlanks (headerRow.map (fun x => title (strip x)))).length =
        FIELDS.length →
      parse_csv (headerRow :: dataRows) =
        some (mkLocation FIELDS
            (dropTrailingBlanks (headerRow.map (fun x => title (strip x)))) ::
          dataRows.map (mkLocation FIELDS))) := by
  constructor
  · intro hlen
    simp [parse_csv, hset, hlen]
  · intro hlen
    simp [parse_csv, hset, hlen]

/-- Witness for C9: a two-column bogus header is a hard failure. -/
theorem parse_csv_header_mismatch_spot :
    sameFieldSet (dropTrailingBlanks
        ((["Bogus", "Header"]).map (fun x => title (strip x)))) FIELDS = false ∧
    parse_csv [["Bogus", "Header"], ["1", "2"]] = none :=
  ⟨by decide,
    (parse_csv_header_mismatch ["Bogus", "Header"] [["1", "2"]] (by decide)).1
      (by decide)⟩

/-! ### Claim C10 -/

/-- C10: the fingerprint is independent of the region enrichment — `gen_id`
runs before `gen_region` in the pipeline, so two runs that differ only in the
suburb-to-region table assign every record the same `'id'`. -/
theorem fingerprint_region_independent (parseDT : String → Option Int) (now : Int)
    (md5b64 s2r₁ s2r₂ : String → String) (locations : List Record) :
    (processLocations parseDT now md5b64 s2r₁ locations).map
        (fun r => lookupField r "id") =
      (processLocations parseDT now md5b64 s2r₂ locations).map
        (fun r => lookupField r "id") := by
  unfold processLocations
  rw [gen_region_keeps_id, gen_region_keeps_id]

end GenRss
